import Mathlib

/-!
Shallow embedding of `src/upgrade.c` (mpool metadata upgrade module):
the MDC content version type `omf_mdcver`, the version registry `mdcvtab`,
and the routines `omfu_mdcver_cur`, `omfu_mdcver_comment`,
`omfu_mdcver_to_str`, `omfu_mdcver_cmp`, `omfu_mdcver_cmp2`.
-/

namespace Upgrade

/-- The four-component MDC content version, `struct omf_mdcver`.
Components are u16 in C; we model them as `Nat` (values below 2^16 where
a claim needs the width). -/
structure omf_mdcver where
  mdcv_major : Nat
  mdcv_minor : Nat
  mdcv_patch : Nat
  mdcv_dev   : Nat
deriving DecidableEq, Repr

instance : Inhabited omf_mdcver := ⟨⟨0, 0, 0, 0⟩⟩

/-- The union's array view `a->mdcver[0..3]`: major first, dev last. -/
def mdcver_arr (v : omf_mdcver) : List Nat :=
  [v.mdcv_major, v.mdcv_minor, v.mdcv_patch, v.mdcv_dev]

/-- Each component is representable in the 16-bit component width (u16). -/
def bounded16 (v : omf_mdcver) : Prop :=
  v.mdcv_major < 65536 ∧ v.mdcv_minor < 65536 ∧
  v.mdcv_patch < 65536 ∧ v.mdcv_dev < 65536

instance (v : omf_mdcver) : Decidable (bounded16 v) := by
  unfold bounded16; infer_instance

/-- C string indexing `s[i]` for the operator argument: the character at
index `i`, the NUL terminator at the end of the string. -/
def cAt (s : String) (i : Nat) : Char :=
  s.toList.getD i (Char.ofNat 0)

/-- The comparison loop of `omfu_mdcver_cmp` (upgrade.c lines 114-119):
walk the component arrays in parallel; at the first differing component
the result is 1 or -1 by its sign, else 0. -/
def cmpLoop : List Nat → List Nat → Int
  | a :: as, b :: bs =>
      if a ≠ b then (if a > b then 1 else -1) else cmpLoop as bs
  | _, _ => 0

/-- The signed ordering result `res` computed by `omfu_mdcver_cmp`. -/
def mdcverRes (a b : omf_mdcver) : Int :=
  cmpLoop (mdcver_arr a) (mdcver_arr b)

/-- `omfu_mdcver_cmp(a, op, b)` (upgrade.c lines 108-126): compute the
signed component-wise result, then dispatch on `op[0]` and `op[1]`. -/
def omfu_mdcver_cmp (a : omf_mdcver) (op : String) (b : omf_mdcver) : Bool :=
  let res := mdcverRes a b
  if (cAt op 1 = '=' ∧ res = 0) ∨ (cAt op 0 = '>' ∧ res > 0) ∨
     (cAt op 0 = '<' ∧ res < 0) then
    true
  else
    false

/-- `omfu_mdcver_cmp2(a, op, major, minor, patch, dev)` (upgrade.c lines
128-138): build a `struct omf_mdcver` from the four literals and delegate
to `omfu_mdcver_cmp`. -/
def omfu_mdcver_cmp2 (a : omf_mdcver) (op : String)
    (major minor patch dev : Nat) : Bool :=
  let b : omf_mdcver :=
    { mdcv_major := major, mdcv_minor := minor,
      mdcv_patch := patch, mdcv_dev := dev }
  omfu_mdcver_cmp a op b

/-- Record-type markers `OMF_MDR_*` used in `mdcver_1_0_0_0_types`
(declared in a header outside this file; only their identity matters
here). -/
inductive omf_mdr where
  | OCREATE | OUPDATE | ODELETE | OIDCKPT | OERASE
  | MCCONFIG | MCSPARE | VERSION | MPCONFIG
deriving DecidableEq, Repr

/-- `mdcver_1_0_0_0_types[]`: MDC types written at version 1.0.0.0. -/
def mdcver_1_0_0_0_types : List omf_mdr :=
  [.OCREATE, .OUPDATE, .ODELETE, .OIDCKPT, .OERASE,
   .MCCONFIG, .MCSPARE, .VERSION, .MPCONFIG]

/-- `struct mdcver_info`: one row of the version registry. -/
structure mdcver_info where
  mi_mdcver  : omf_mdcver
  mi_types   : List omf_mdr
  mi_ntypes  : Nat
  mi_comment : String
deriving DecidableEq, Repr

instance : Inhabited mdcver_info := ⟨⟨default, [], 0, ""⟩⟩

/-- `mdcvtab[]` (upgrade.c lines 78-82): the table of versions of mpool
MDCs content.  One entry, version 1.0.0.0. -/
def mdcvtab : List mdcver_info :=
  [{ mi_mdcver := ⟨1, 0, 0, 0⟩,
     mi_types := mdcver_1_0_0_0_types,
     mi_ntypes := mdcver_1_0_0_0_types.length,
     mi_comment := "Initial mpool MDCs content" }]

/-- `omfu_mdcver_cur()` (upgrade.c lines 84-87):
`mdcvtab[ARRAY_SIZE(mdcvtab) - 1].mi_mdcver`. -/
def omfu_mdcver_cur : omf_mdcver :=
  (mdcvtab.getD (mdcvtab.length - 1) default).mi_mdcver

/-- The scan loop of `omfu_mdcver_comment` over the remaining table
entries. -/
def commentLoop (v : omf_mdcver) : List mdcver_info → Option String
  | [] => none
  | e :: rest =>
      if omfu_mdcver_cmp v "==" e.mi_mdcver then some e.mi_comment
      else commentLoop v rest

/-- `omfu_mdcver_comment(mdcver)` (upgrade.c lines 89-98): scan `mdcvtab`
in order, return the comment of the first entry whose version compares
`"=="` to the argument, else NULL. -/
def omfu_mdcver_comment (v : omf_mdcver) : Option String :=
  commentLoop v mdcvtab

/-- Decimal rendering of one `%u` conversion of `snprintf`: base-10
digits, most significant first, a single `'0'` for zero. -/
def uDecL (n : Nat) : List Char :=
  if n < 10 then [Nat.digitChar n]
  else uDecL (n / 10) ++ [Nat.digitChar (n % 10)]
termination_by n
decreasing_by exact Nat.div_lt_self (by omega) (by omega)

/-- The characters produced by `snprintf(buf, sz, "%u.%u.%u.%u", ...)`
before any truncation. -/
def renderL (v : omf_mdcver) : List Char :=
  uDecL v.mdcv_major ++ '.' ::
    (uDecL v.mdcv_minor ++ '.' ::
      (uDecL v.mdcv_patch ++ '.' :: uDecL v.mdcv_dev))

/-- The untruncated rendering as a string. -/
def renderStr (v : omf_mdcver) : String :=
  ⟨renderL v⟩

/-- `omfu_mdcver_to_str(mdcver, buf, sz)` (upgrade.c lines 100-106):
`snprintf` the rendering into the caller's buffer of size `sz` —
at most `sz - 1` characters plus the terminator — and return the
buffer. -/
def omfu_mdcver_to_str (v : omf_mdcver) (sz : Nat) : String :=
  ⟨(renderL v).take (sz - 1)⟩

/-- Specification-side ordering: lexicographic comparison of the tuples
`(major, minor, patch, dev)`, most significant component first. -/
def specLexOrd (a b : omf_mdcver) : Ordering :=
  (compare a.mdcv_major b.mdcv_major).then
    ((compare a.mdcv_minor b.mdcv_minor).then
      ((compare a.mdcv_patch b.mdcv_patch).then
        (compare a.mdcv_dev b.mdcv_dev)))

/-- The signed integer a comparison `Ordering` stands for. -/
def ordToInt : Ordering → Int
  | .lt => -1
  | .eq => 0
  | .gt => 1

end Upgrade
namespace Upgrade

lemma ordToInt_then_eq (o : Ordering) : o.then .eq = o := by cases o <;> rfl

lemma cmpLoop_step (x y : Nat) (xs ys : List Nat) (o : Ordering)
    (h : cmpLoop xs ys = ordToInt o) :
    cmpLoop (x :: xs) (y :: ys) = ordToInt ((compare x y).then o) := by
  rcases Nat.lt_trichotomy x y with hx | rfl | hx
  · rw [Nat.compare_eq_lt.2 hx]
    simp only [cmpLoop]
    rw [if_pos (by omega), if_neg (by omega)]
    rfl
  · rw [Nat.compare_eq_eq.2 rfl]
    simp only [cmpLoop]
    rw [if_neg (by omega)]
    simpa using h
  · rw [Nat.compare_eq_gt.2 hx]
    simp only [cmpLoop]
    rw [if_pos (by omega), if_pos (by omega)]
    rfl

lemma mdcverRes_lex (a b : omf_mdcver) :
    mdcverRes a b = ordToInt (specLexOrd a b) := by
  obtain ⟨a1, a2, a3, a4⟩ := a
  obtain ⟨b1, b2, b3, b4⟩ := b
  show cmpLoop [a1, a2, a3, a4] [b1, b2, b3, b4] = _
  have h0 : cmpLoop [] [] = ordToInt .eq := rfl
  have h4 := cmpLoop_step a4 b4 [] [] _ h0
  have h3 := cmpLoop_step a3 b3 _ _ _ h4
  have h2 := cmpLoop_step a2 b2 _ _ _ h3
  have h1 := cmpLoop_step a1 b1 _ _ _ h2
  rw [h1]
  simp only [specLexOrd, ordToInt_then_eq]

end Upgrade
namespace Upgrade

lemma specLexOrd_eq_iff (a b : omf_mdcver) : specLexOrd a b = .eq ↔ a = b := by
  obtain ⟨a1, a2, a3, a4⟩ := a
  obtain ⟨b1, b2, b3, b4⟩ := b
  simp [specLexOrd, Ordering.then_eq_eq, Nat.compare_eq_eq, omf_mdcver.mk.injEq, and_assoc]

lemma mdcverRes_zero_iff (a b : omf_mdcver) : mdcverRes a b = 0 ↔ a = b := by
  rw [mdcverRes_lex, ← specLexOrd_eq_iff]
  cases specLexOrd a b <;> simp [ordToInt]

lemma mdcverRes_pos_iff (a b : omf_mdcver) :
    mdcverRes a b > 0 ↔ specLexOrd a b = .gt := by
  rw [mdcverRes_lex]
  cases specLexOrd a b <;> simp [ordToInt]

lemma mdcverRes_neg_iff (a b : omf_mdcver) :
    mdcverRes a b < 0 ↔ specLexOrd a b = .lt := by
  rw [mdcverRes_lex]
  cases specLexOrd a b <;> simp [ordToInt]

lemma cmp_true_iff (a b : omf_mdcver) (op : String) :
    omfu_mdcver_cmp a op b = true ↔
      (cAt op 1 = '=' ∧ mdcverRes a b = 0) ∨
      (cAt op 0 = '>' ∧ mdcverRes a b > 0) ∨
      (cAt op 0 = '<' ∧ mdcverRes a b < 0) := by
  simp [omfu_mdcver_cmp]

lemma cmp_eq_true_iff (a b : omf_mdcver) :
    omfu_mdcver_cmp a "==" b = true ↔ a = b := by
  rw [cmp_true_iff, ← mdcverRes_zero_iff]
  have h0 : cAt "==" 0 = '=' := by decide
  have h1 : cAt "==" 1 = '=' := by decide
  rw [h0, h1]
  simp

lemma cmp_lt_true_iff (a b : omf_mdcver) :
    omfu_mdcver_cmp a "<" b = true ↔ mdcverRes a b < 0 := by
  rw [cmp_true_iff]
  have h0 : cAt "<" 0 = '<' := by decide
  have h1 : cAt "<" 1 = Char.ofNat 0 := by decide
  rw [h0, h1]
  simp

lemma cmp_gt_true_iff (a b : omf_mdcver) :
    omfu_mdcver_cmp a ">" b = true ↔ mdcverRes a b > 0 := by
  rw [cmp_true_iff]
  have h0 : cAt ">" 0 = '>' := by decide
  have h1 : cAt ">" 1 = Char.ofNat 0 := by decide
  rw [h0, h1]
  simp

lemma cmp_ge_true_iff (a b : omf_mdcver) :
    omfu_mdcver_cmp a ">=" b = true ↔ mdcverRes a b = 0 ∨ mdcverRes a b > 0 := by
  rw [cmp_true_iff]
  have h0 : cAt ">=" 0 = '>' := by decide
  have h1 : cAt ">=" 1 = '=' := by decide
  rw [h0, h1]
  simp

lemma cmp_le_true_iff (a b : omf_mdcver) :
    omfu_mdcver_cmp a "<=" b = true ↔ mdcverRes a b = 0 ∨ mdcverRes a b < 0 := by
  rw [cmp_true_iff]
  have h0 : cAt "<=" 0 = '<' := by decide
  have h1 : cAt "<=" 1 = '=' := by decide
  rw [h0, h1]
  simp

end Upgrade
namespace Upgrade

lemma uDecL_eq (n : Nat) :
    uDecL n = if n < 10 then [Nat.digitChar n]
      else uDecL (n / 10) ++ [Nat.digitChar (n % 10)] := by
  rw [uDecL]

lemma digitChar_toNat (d : Nat) (h : d < 10) : (Nat.digitChar d).toNat = 48 + d := by
  interval_cases d <;> rfl

lemma digitChar_ne_dot (d : Nat) (h : d < 10) : Nat.digitChar d ≠ '.' := by
  interval_cases d <;> decide

lemma digitChar_ne_zero (d : Nat) (h1 : 0 < d) (h2 : d < 10) :
    Nat.digitChar d ≠ '0' := by
  interval_cases d <;> decide

lemma uDecL_ne_nil (n : Nat) : uDecL n ≠ [] := by
  rw [uDecL_eq]; split <;> simp

lemma uDecL_digits (n : Nat) : ∀ c ∈ uDecL n, ∃ d, d < 10 ∧ c = Nat.digitChar d := by
  induction n using Nat.strong_induction_on with
  | _ n ih =>
    rw [uDecL_eq]
    split
    · next h =>
      intro c hc
      simp only [List.mem_singleton] at hc
      exact ⟨n, h, hc⟩
    · next h =>
      intro c hc
      rw [List.mem_append] at hc
      rcases hc with hc | hc
      · exact ih (n / 10) (Nat.div_lt_self (by omega) (by omega)) c hc
      · simp only [List.mem_singleton] at hc
        exact ⟨n % 10, Nat.mod_lt _ (by omega), hc⟩

lemma dot_not_mem_uDecL (n : Nat) : '.' ∉ uDecL n := by
  intro h
  obtain ⟨d, hd, hc⟩ := uDecL_digits n '.' h
  exact digitChar_ne_dot d hd hc.symm

/-- Decimal value of a digit string, the inverse of `uDecL`. -/
def decVal (cs : List Char) : Nat :=
  cs.foldl (fun acc c => acc * 10 + (c.toNat - 48)) 0

lemma foldl_uDecL (acc n : Nat) :
    List.foldl (fun a c => a * 10 + (c.toNat - 48)) acc (uDecL n) =
      acc * 10 ^ (uDecL n).length + n := by
  induction n using Nat.strong_induction_on generalizing acc with
  | _ n ih =>
    rw [uDecL_eq]
    split
    · next h =>
      simp only [List.foldl, List.length_cons, List.length_nil, pow_one,
        digitChar_toNat n h]
      omega
    · next h =>
      rw [List.foldl_append, ih (n / 10) (Nat.div_lt_self (by omega) (by omega)) acc]
      simp only [List.foldl, List.length_append, List.length_cons, List.length_nil,
        digitChar_toNat (n % 10) (Nat.mod_lt _ (by omega))]
      rw [pow_succ, ← Nat.mul_assoc]
      generalize acc * 10 ^ (uDecL (n / 10)).length = A
      omega

lemma decVal_uDecL (n : Nat) : decVal (uDecL n) = n := by
  simpa [decVal] using foldl_uDecL 0 n

lemma uDecL_inj {m n : Nat} (h : uDecL m = uDecL n) : m = n := by
  have hm := decVal_uDecL m
  rw [h, decVal_uDecL] at hm
  exact hm.symm

lemma append_dot_inj :
    ∀ (xs xs' ys ys' : List Char), '.' ∉ xs → '.' ∉ xs' →
      xs ++ '.' :: ys = xs' ++ '.' :: ys' → xs = xs' ∧ ys = ys' := by
  intro xs
  induction xs with
  | nil =>
    intro xs' ys ys' _ hx' h
    cases xs' with
    | nil => simpa using h
    | cons c cs =>
      simp only [List.nil_append, List.cons_append, List.cons.injEq] at h
      exact absurd (show ('.' : Char) ∈ c :: cs from by
        rw [h.1]; exact List.mem_cons_self _ _) hx'
  | cons c cs ih =>
    intro xs' ys ys' hx hx' h
    cases xs' with
    | nil =>
      simp only [List.cons_append, List.nil_append, List.cons.injEq] at h
      exact absurd (show ('.' : Char) ∈ c :: cs from by
        rw [← h.1]; exact List.mem_cons_self _ _) hx
    | cons c' cs' =>
      simp only [List.cons_append, List.cons.injEq] at h
      obtain ⟨rfl, h2⟩ := h
      have := ih cs' ys ys'
        (fun hm => hx (List.mem_cons_of_mem _ hm))
        (fun hm => hx' (List.mem_cons_of_mem _ hm)) h2
      exact ⟨by rw [this.1], this.2⟩

lemma renderL_inj (v w : omf_mdcver) (h : renderL v = renderL w) : v = w := by
  obtain ⟨v1, v2, v3, v4⟩ := v
  obtain ⟨w1, w2, w3, w4⟩ := w
  unfold renderL at h
  obtain ⟨h1, h⟩ := append_dot_inj _ _ _ _
    (dot_not_mem_uDecL _) (dot_not_mem_uDecL _) h
  obtain ⟨h2, h⟩ := append_dot_inj _ _ _ _
    (dot_not_mem_uDecL _) (dot_not_mem_uDecL _) h
  obtain ⟨h3, h4⟩ := append_dot_inj _ _ _ _
    (dot_not_mem_uDecL _) (dot_not_mem_uDecL _) h
  simp only [omf_mdcver.mk.injEq]
  exact ⟨uDecL_inj h1, uDecL_inj h2, uDecL_inj h3, uDecL_inj h4⟩

lemma uDecL_head_ne_zero : ∀ n : Nat, 0 < n → (uDecL n).head? ≠ some '0' := by
  intro n
  induction n using Nat.strong_induction_on with
  | _ n ih =>
    intro h
    rw [uDecL_eq]
    split
    · next hlt =>
      intro hc
      simp only [List.head?] at hc
      exact digitChar_ne_zero n h hlt (by simpa using hc)
    · next hge =>
      obtain ⟨c, cs, hcons⟩ := List.exists_cons_of_ne_nil (uDecL_ne_nil (n / 10))
      rw [hcons]
      have hh := ih (n / 10) (Nat.div_lt_self (by omega) (by omega)) (by omega)
      rw [hcons] at hh
      simpa using hh

lemma uDecL_length_le : ∀ (k n : Nat), n < 10 ^ (k + 1) → (uDecL n).length ≤ k + 1 := by
  intro k
  induction k with
  | zero =>
    intro n h
    rw [uDecL_eq, if_pos (by simpa using h)]
    simp
  | succ k ih =>
    intro n h
    rw [uDecL_eq]
    split
    · simp
    · next hge =>
      simp only [List.length_append, List.length_cons, List.length_nil]
      have hdiv : n / 10 < 10 ^ (k + 1) := by
        rw [pow_succ] at h
        omega
      have hlen := ih (n / 10) hdiv
      omega

lemma renderL_length_le (v : omf_mdcver) (hb : bounded16 v) :
    (renderL v).length ≤ 23 := by
  obtain ⟨h1, h2, h3, h4⟩ := hb
  have hp : (10 : Nat) ^ (4 + 1) = 100000 := by norm_num
  have l1 := uDecL_length_le 4 v.mdcv_major (by omega)
  have l2 := uDecL_length_le 4 v.mdcv_minor (by omega)
  have l3 := uDecL_length_le 4 v.mdcv_patch (by omega)
  have l4 := uDecL_length_le 4 v.mdcv_dev (by omega)
  simp only [renderL, List.length_append, List.length_cons]
  omega

end Upgrade
namespace Upgrade

lemma commentLoop_find (v : omf_mdcver) :
    ∀ l : List mdcver_info,
      commentLoop v l =
        (l.find? (fun e => decide (v = e.mi_mdcver))).map mdcver_info.mi_comment := by
  intro l
  induction l with
  | nil => rfl
  | cons e rest ih =>
    by_cases h : v = e.mi_mdcver
    · subst h
      have hc : omfu_mdcver_cmp e.mi_mdcver "==" e.mi_mdcver = true :=
        (cmp_eq_true_iff _ _).2 rfl
      simp [commentLoop, List.find?, hc]
    · have hc : ¬ (omfu_mdcver_cmp v "==" e.mi_mdcver = true) :=
        fun hh => h ((cmp_eq_true_iff _ _).1 hh)
      simp [commentLoop, List.find?, hc, h, ih]

/-- C1: `omfu_mdcver_cmp` orders two version identifiers by comparing the
four components pairwise from major (most significant) to dev (least
significant), the first differing component deciding by its sign and
all-equal meaning "equal": the signed result it computes equals the
lexicographic ordering of the tuples (major, minor, patch, dev), and the
three strict operators evaluate that lexicographic ordering. -/
theorem omfu_mdcver_cmp_lexicographic (a b : omf_mdcver) :
    mdcverRes a b = ordToInt (specLexOrd a b) ∧
    (omfu_mdcver_cmp a "==" b = true ↔ specLexOrd a b = .eq) ∧
    (omfu_mdcver_cmp a "<" b = true ↔ specLexOrd a b = .lt) ∧
    (omfu_mdcver_cmp a ">" b = true ↔ specLexOrd a b = .gt) := by
  refine ⟨mdcverRes_lex a b, ?_, ?_, ?_⟩
  · rw [cmp_eq_true_iff]
    exact (specLexOrd_eq_iff a b).symm
  · rw [cmp_lt_true_iff]
    exact mdcverRes_neg_iff a b
  · rw [cmp_gt_true_iff]
    exact mdcverRes_pos_iff a b

/-- C2 counterexample: the operator `"!="` lies outside the closed set
`{==, <, >, >=, <=}`, yet `omfu_mdcver_cmp` does not reject it — on equal
arguments it returns true, exactly what `"=="` returns, so the invalid
operator is silently misinterpreted as a valid one. -/
theorem omfu_mdcver_cmp_invalid_op_cex :
    omfu_mdcver_cmp ⟨1, 0, 0, 0⟩ "!=" ⟨1, 0, 0, 0⟩ = true ∧
    omfu_mdcver_cmp ⟨1, 0, 0, 0⟩ "!=" ⟨1, 0, 0, 0⟩ =
      omfu_mdcver_cmp ⟨1, 0, 0, 0⟩ "==" ⟨1, 0, 0, 0⟩ := by decide

/-- C2 (amended): an operator token outside the closed set is not
rejected: the result depends only on the first two characters of the
token — any operator whose second character is '=' accepts equal
versions (so `"!="` is silently interpreted like `"=="`), and only an
operator whose first character is neither '<' nor '>' and whose second
character is not '=' deterministically returns false. -/
theorem omfu_mdcver_cmp_invalid_op_amended :
    (∀ (a b : omf_mdcver) (op : String),
      cAt op 0 ≠ '<' → cAt op 0 ≠ '>' → cAt op 1 ≠ '=' →
      omfu_mdcver_cmp a op b = false) ∧
    (∀ (a : omf_mdcver) (op : String), cAt op 1 = '=' →
      omfu_mdcver_cmp a op a = true) := by
  constructor
  · intro a b op h0l h0g h1
    simp [omfu_mdcver_cmp, h0l, h0g, h1]
  · intro a op h1
    have h0 : mdcverRes a a = 0 := (mdcverRes_zero_iff a a).2 rfl
    simp [omfu_mdcver_cmp, h1, h0]

theorem omfu_mdcver_cmp_invalid_op_amended_witness :
    (cAt "!!" 0 ≠ '<' ∧ cAt "!!" 0 ≠ '>' ∧ cAt "!!" 1 ≠ '=' ∧
      omfu_mdcver_cmp ⟨1, 0, 0, 0⟩ "!!" ⟨2, 0, 0, 0⟩ = false) ∧
    (cAt "!=" 1 = '=' ∧
      omfu_mdcver_cmp ⟨1, 0, 0, 0⟩ "!=" ⟨1, 0, 0, 0⟩ = true) :=
  ⟨⟨by decide, by decide, by decide,
    omfu_mdcver_cmp_invalid_op_amended.1 ⟨1, 0, 0, 0⟩ ⟨2, 0, 0, 0⟩ "!!"
      (by decide) (by decide) (by decide)⟩,
   ⟨by decide,
    omfu_mdcver_cmp_invalid_op_amended.2 ⟨1, 0, 0, 0⟩ "!=" (by decide)⟩⟩

/-- C3: for every pair (a, b) exactly one of `omfu_mdcver_cmp a "==" b`,
`omfu_mdcver_cmp a "<" b`, `omfu_mdcver_cmp a ">" b` returns true. -/
theorem omfu_mdcver_cmp_trichotomy (a b : omf_mdcver) :
    (omfu_mdcver_cmp a "==" b = true ∨ omfu_mdcver_cmp a "<" b = true ∨
      omfu_mdcver_cmp a ">" b = true) ∧
    ¬(omfu_mdcver_cmp a "==" b = true ∧ omfu_mdcver_cmp a "<" b = true) ∧
    ¬(omfu_mdcver_cmp a "==" b = true ∧ omfu_mdcver_cmp a ">" b = true) ∧
    ¬(omfu_mdcver_cmp a "<" b = true ∧ omfu_mdcver_cmp a ">" b = true) := by
  have he := cmp_eq_true_iff a b
  rw [← mdcverRes_zero_iff] at he
  have hl := cmp_lt_true_iff a b
  have hg := cmp_gt_true_iff a b
  rw [he, hl, hg]
  omega

/-- C4: `omfu_mdcver_cur` never fails (the registry is non-empty) and
returns the version field of the last entry of `mdcvtab`; for the
shipped table this is 1.0.0.0. -/
theorem omfu_mdcver_cur_spec :
    mdcvtab ≠ [] ∧
    (∃ e, mdcvtab.getLast? = some e ∧ omfu_mdcver_cur = e.mi_mdcver) ∧
    omfu_mdcver_cur = ⟨1, 0, 0, 0⟩ := by
  refine ⟨by simp [mdcvtab], ⟨_, rfl, rfl⟩, rfl⟩

/-- C5: `omfu_mdcver_comment` scans the registry in order for an entry
whose version equals the argument by exact four-component equality and
returns that entry's comment, or an absent result when no entry matches;
in particular the current version maps to the last entry's comment and
an absent version (2.0.0.0) yields not-found. -/
theorem omfu_mdcver_comment_spec :
    (∀ v, omfu_mdcver_comment v =
      (mdcvtab.find? (fun e => decide (v = e.mi_mdcver))).map
        mdcver_info.mi_comment) ∧
    omfu_mdcver_comment omfu_mdcver_cur = some "Initial mpool MDCs content" ∧
    omfu_mdcver_comment ⟨2, 0, 0, 0⟩ = none := by
  refine ⟨fun v => commentLoop_find v mdcvtab, by decide, by decide⟩

/-- C7: `omfu_mdcver_cmp a ">=" b` equals `omfu_mdcver_cmp a ">" b` or
`omfu_mdcver_cmp a "==" b`, and symmetrically for `"<="`. -/
theorem omfu_mdcver_cmp_ge_le_consistency (a b : omf_mdcver) :
    omfu_mdcver_cmp a ">=" b =
      (omfu_mdcver_cmp a ">" b || omfu_mdcver_cmp a "==" b) ∧
    omfu_mdcver_cmp a "<=" b =
      (omfu_mdcver_cmp a "<" b || omfu_mdcver_cmp a "==" b) := by
  have he := cmp_eq_true_iff a b
  rw [← mdcverRes_zero_iff] at he
  constructor
  · rw [Bool.eq_iff_iff, Bool.or_eq_true, cmp_ge_true_iff, cmp_gt_true_iff, he]
    omega
  · rw [Bool.eq_iff_iff, Bool.or_eq_true, cmp_le_true_iff, cmp_lt_true_iff, he]
    omega

/-- C8: `omfu_mdcver_cmp2 a op major minor patch dev` builds the version
identifier from the four literals and delegates to `omfu_mdcver_cmp`. -/
theorem omfu_mdcver_cmp2_delegates (a : omf_mdcver) (op : String)
    (major minor patch dev : Nat) :
    omfu_mdcver_cmp2 a op major minor patch dev =
      omfu_mdcver_cmp a op ⟨major, minor, patch, dev⟩ := rfl

/-- C9: `omfu_mdcver_cmp` inspects only the first two characters of the
operator string: for any operator of length at least 2 it returns true
iff the second character is '=' and the versions are equal, or the first
character is '>' ('<') and the first is lexicographically greater
(smaller); in particular the unrecognized operator `"!="` on two equal
versions returns true. -/
theorem omfu_mdcver_cmp_two_char_dispatch :
    (∀ (a b : omf_mdcver) (op : String), 2 ≤ op.length →
      (omfu_mdcver_cmp a op b = true ↔
        (cAt op 1 = '=' ∧ a = b) ∨
        (cAt op 0 = '>' ∧ specLexOrd a b = .gt) ∨
        (cAt op 0 = '<' ∧ specLexOrd a b = .lt))) ∧
    omfu_mdcver_cmp ⟨1, 0, 0, 0⟩ "!=" ⟨1, 0, 0, 0⟩ = true := by
  constructor
  · intro a b op _
    rw [cmp_true_iff, mdcverRes_zero_iff, mdcverRes_pos_iff, mdcverRes_neg_iff]
  · decide

theorem omfu_mdcver_cmp_two_char_dispatch_witness :
    (2 ≤ ("==" : String).length) ∧
    (omfu_mdcver_cmp ⟨1, 0, 0, 0⟩ "==" ⟨1, 0, 0, 0⟩ = true ↔
      (cAt "==" 1 = '=' ∧ (⟨1, 0, 0, 0⟩ : omf_mdcver) = ⟨1, 0, 0, 0⟩) ∨
      (cAt "==" 0 = '>' ∧ specLexOrd ⟨1, 0, 0, 0⟩ ⟨1, 0, 0, 0⟩ = .gt) ∨
      (cAt "==" 0 = '<' ∧ specLexOrd ⟨1, 0, 0, 0⟩ ⟨1, 0, 0, 0⟩ = .lt)) :=
  ⟨by decide,
   omfu_mdcver_cmp_two_char_dispatch.1 ⟨1, 0, 0, 0⟩ ⟨1, 0, 0, 0⟩ "==" (by decide)⟩

end Upgrade
namespace Upgrade

/-- C6: `omfu_mdcver_to_str` renders the canonical dotted decimal form
"major.minor.patch.dev": zero renders as a single '0', a positive
component never starts with '0', distinct version identifiers with
16-bit components render to distinct strings, and VersionId{1,0,0,0}
renders exactly as "1.0.0.0". -/
theorem omfu_mdcver_to_str_canonical :
    renderStr ⟨1, 0, 0, 0⟩ = "1.0.0.0" ∧
    uDecL 0 = ['0'] ∧
    (∀ n, 0 < n → (uDecL n).head? ≠ some '0') ∧
    (∀ v w, bounded16 v → bounded16 w → renderStr v = renderStr w → v = w) := by
  have h0 : uDecL 0 = ['0'] := by rw [uDecL_eq]; decide
  have h1 : uDecL 1 = ['1'] := by rw [uDecL_eq]; decide
  refine ⟨?_, h0, uDecL_head_ne_zero, ?_⟩
  · show (⟨renderL ⟨1, 0, 0, 0⟩⟩ : String) = "1.0.0.0"
    rw [renderL, h0, h1]
    decide
  · intro v w _ _ h
    exact renderL_inj v w (congrArg String.data h)

theorem omfu_mdcver_to_str_canonical_witness :
    0 < 5 ∧ (uDecL 5).head? ≠ some '0' ∧
    bounded16 ⟨1, 0, 0, 0⟩ ∧ bounded16 ⟨1, 0, 0, 0⟩ ∧
    renderStr ⟨1, 0, 0, 0⟩ = renderStr ⟨1, 0, 0, 0⟩ ∧
    (⟨1, 0, 0, 0⟩ : omf_mdcver) = ⟨1, 0, 0, 0⟩ :=
  ⟨by decide, omfu_mdcver_to_str_canonical.2.2.1 5 (by decide),
   by decide, by decide, rfl,
   omfu_mdcver_to_str_canonical.2.2.2 ⟨1, 0, 0, 0⟩ ⟨1, 0, 0, 0⟩
     (by decide) (by decide) rfl⟩

/-- C10: the dotted decimal rendering of four 16-bit components occupies
at most 23 characters (plus terminator), so `omfu_mdcver_to_str` with a
buffer size of at least 24 produces the complete untruncated rendering,
while any smaller size silently truncates the output to sz-1
characters. -/
theorem omfu_mdcver_to_str_truncation :
    (∀ v, bounded16 v → (renderL v).length ≤ 23) ∧
    (∀ v sz, bounded16 v → 24 ≤ sz → omfu_mdcver_to_str v sz = renderStr v) ∧
    (∀ v sz, omfu_mdcver_to_str v sz = ⟨(renderL v).take (sz - 1)⟩) := by
  refine ⟨renderL_length_le, ?_, fun v sz => rfl⟩
  intro v sz hb hsz
  show (⟨(renderL v).take (sz - 1)⟩ : String) = ⟨renderL v⟩
  have hlen : (renderL v).length ≤ sz - 1 :=
    le_trans (renderL_length_le v hb) (by omega)
  rw [List.take_of_length_le hlen]

theorem omfu_mdcver_to_str_truncation_witness :
    bounded16 ⟨1, 0, 0, 0⟩ ∧ (24 : Nat) ≤ 24 ∧
    omfu_mdcver_to_str ⟨1, 0, 0, 0⟩ 24 = renderStr ⟨1, 0, 0, 0⟩ :=
  ⟨by decide, by decide,
   omfu_mdcver_to_str_truncation.2.1 ⟨1, 0, 0, 0⟩ 24 (by decide) (by decide)⟩

end Upgrade
